import Mathlib

/-!
Verification development for the 9_telebots repository.

The repository contains several Telegram bot variants (bot.py,
payment-bot/app.py, order_bot.py, improved_order_bot.py) sharing a
customer-resolution pipeline: a customer index built from a reference
list of records, layered lookup strategies (exact, case-insensitive,
substring containment, fuzzy matching, LLM fallback with validation),
message parsers extracting (name, amount[, product]) from free text,
and a ledger-append boundary.

This file shallowly embeds the relevant Python functions over
`String`/`List Char`.  Python dicts are modelled as insertion-ordered
association lists (`List (String × String)`) with in-place value
replacement on key collision, which matches CPython dict semantics.
The OpenAI chat completion is modelled as an uninterpreted oracle
`resp : String → String` giving the raw text the model returns; the
code's own validation of that text is embedded faithfully.

Character-class notes: the Python sources use `str.strip`/`\s` (ASCII
whitespace; no exotic unicode spaces occur in this domain), `\d`
(ASCII digits in the messages involved), `str.lower` (identity on the
Georgian mkhedruli letters used in the data, case-mapping on ASCII)
and `\w` (letters, digits, underscore; here: ASCII alphanumerics,
underscore, and the Georgian block U+10A0–U+10FF).  The embeddings
below fix those classes accordingly.
-/

set_option maxRecDepth 4000

namespace Telebots

/-- ASCII/Python whitespace: space, tab, newline, carriage return,
vertical tab (11), form feed (12). -/
def isPySpace (c : Char) : Bool :=
  c = ' ' || c = '\t' || c = '\n' || c = '\r' || c.toNat = 11 || c.toNat = 12

/-- Python `\w` restricted to the character repertoire of this domain:
ASCII alphanumerics, underscore, and the Georgian block U+10A0–U+10FF. -/
def isWordChar (c : Char) : Bool :=
  c.isAlphanum || c = '_' || (0x10A0 ≤ c.toNat && c.toNat ≤ 0x10FF)

/-- `str.strip()` on a character list: drop leading and trailing whitespace. -/
def stripL (l : List Char) : List Char :=
  ((l.dropWhile isPySpace).reverse.dropWhile isPySpace).reverse

/-- `str.strip()`. -/
def pyStrip (s : String) : String := String.mk (stripL s.data)

/-- `str.lower()` (ASCII case map; Georgian mkhedruli is unaffected,
matching CPython's behaviour on these strings). -/
def pyLower (s : String) : String := String.mk (s.data.map Char.toLower)

/-- One step of `str.split()`: split on whitespace runs, discarding
empty pieces.  `acc` is the current (reversed) in-progress word. -/
def splitWsAux : List Char → List Char → List (List Char)
  | [], acc => if acc = [] then [] else [acc.reverse]
  | c :: t, acc =>
    if isPySpace c then
      if acc = [] then splitWsAux t [] else acc.reverse :: splitWsAux t []
    else splitWsAux t (c :: acc)

/-- `str.split()` with no argument. -/
def pySplitWs (l : List Char) : List (List Char) := splitWsAux l []

/-- Python's `needle in hay` substring test. -/
def strIn (needle : List Char) : List Char → Bool
  | [] => needle.isEmpty
  | c :: t => needle.isPrefixOf (c :: t) || strIn needle t

/-- Python string `<`: lexicographic comparison by code point. -/
def lexLt : List Char → List Char → Bool
  | [], [] => false
  | [], _ :: _ => true
  | _ :: _, [] => false
  | a :: as, b :: bs => if a.toNat < b.toNat then true else if a = b then lexLt as bs else false

/-- CPython dict assignment `d[k] = v`: replace the value in place when
the key exists (keeping its position), otherwise append. -/
def dictInsert (k v : String) : List (String × String) → List (String × String)
  | [] => [(k, v)]
  | (k', v') :: t => if k' = k then (k, v) :: t else (k', v') :: dictInsert k v t

/-- Dict lookup `d[k]` / `k in d`: first (unique) matching key. -/
def lookupA (l : List (String × String)) (k : String) : Option String :=
  match l with
  | [] => none
  | (k', v) :: t => if k' = k then some v else lookupA t k

/-- Dict key deletion `del d[k]` (removes the first matching entry). -/
def dictDelete (k : String) : List (String × String) → List (String × String)
  | [] => []
  | (k', v') :: t => if k' = k then t else (k', v') :: dictDelete k t

/-- `list.remove(x)`: remove the first occurrence. -/
def listRemoveFirst (x : String) : List String → List String
  | [] => []
  | y :: t => if y = x then t else y :: listRemoveFirst x t

/-- Group 1 of `re.match(r'\((.*?)\)\s*(.*)', s)`: scan for the first
`)`; `.` does not cross a newline, so a `\n` before the first `)`
makes the match fail. -/
def parenScan : List Char → Option (List Char × List Char)
  | [] => none
  | ')' :: t => some ([], t)
  | '\n' :: _ => none
  | c :: t => (parenScan t).map (fun g => (c :: g.1, g.2))

/-- `re.match(r'\((.*?)\)\s*(.*)', s)`, returning `(group 1, group 2)`.
Group 2 is the maximal newline-free run after the greedy `\s*`. -/
def parenMatch (s : String) : Option (String × String) :=
  match s.data with
  | '(' :: rest =>
    (parenScan rest).map (fun g =>
      (String.mk g.1, String.mk ((g.2.dropWhile isPySpace).takeWhile (fun c => c ≠ '\n'))))
  | _ => none

/-- Modelled from the spec (§4.1 `build`): the key a record contributes —
`rest` trimmed when the record matches `(code) rest`, otherwise the
whole (already trimmed) record.  Used to compare the builders against
the spec's key-derivation rule. -/
def specKeyOf (record : String) : String :=
  match parenMatch record with
  | some g => pyStrip g.2
  | none => record

/-- The loop body of `PaymentBot._build_name_mapping` (the source binds
`c := customer.strip()` and `name := match.group(2).strip()`; they are
inlined here). -/
def buildStep (acc : List (String × String)) (customer : String) : List (String × String) :=
  if pyStrip customer = "" then acc
  else
    match parenMatch (pyStrip customer) with
    | some g =>
      if pyStrip g.2 = "" then acc
      else dictInsert (pyStrip g.2) (pyStrip customer) acc
    | none => dictInsert (pyStrip customer) (pyStrip customer) acc

/-- `PaymentBot._build_name_mapping` (bot.py:169-197); identical logic in
`OrderBot._build_customer_mapping` (order_bot.py:135-144).  Keys keep
their original case and map to the stripped record. -/
def build_name_mapping (records : List String) : List (String × String) :=
  records.foldl buildStep []

/-- The loop body of `ImprovedOrderBot._build_customer_mapping`
(`name.lower()` and the full `customer.lower()` are both registered;
bindings inlined as in `buildStep`). -/
def improvedBuildStep (acc : List (String × String)) (customer : String) :
    List (String × String) :=
  if pyStrip customer = "" then acc
  else
    match parenMatch (pyStrip customer) with
    | some g =>
      if pyStrip g.2 = "" then acc
      else
        dictInsert (pyLower (pyStrip customer)) (pyStrip customer)
          (dictInsert (pyLower (pyStrip g.2)) (pyStrip customer) acc)
    | none =>
      if pyStrip customer = "" then acc
      else
        dictInsert (pyLower (pyStrip customer)) (pyStrip customer)
          (dictInsert (pyLower (pyStrip customer)) (pyStrip customer) acc)

/-- `ImprovedOrderBot._build_customer_mapping` (improved_order_bot.py:414-440):
stores the lowercased derived name and additionally the lowercased full
record, both mapping to the stripped record. -/
def improved_build_customer_mapping (records : List String) : List (String × String) :=
  records.foldl improvedBuildStep []

/-!
## difflib embedding

`difflib.SequenceMatcher` with no junk (autojunk never fires on the
short strings of this domain).  `find_longest_match` returns, among all
maximal matching blocks, the one starting earliest in `a`, then
earliest in `b` (its documented contract); `ratio` is
`2*M/T` where `M` is the total size of the matching blocks and `T` the
total length, and is `1` when both sequences are empty.
`get_close_matches` keeps candidates whose ratio is `≥ cutoff` (the
quick-ratio pre-filters are upper bounds of `ratio`, hence redundant
for the outcome) and picks the best by the lexicographic order on
`(ratio, candidate string)` used by `heapq.nlargest` on the
`(score, x)` tuples.
-/

/-- Length of the common prefix of two character lists. -/
def lcpLen : List Char → List Char → Nat
  | a :: as, b :: bs => if a = b then lcpLen as bs + 1 else 0
  | _, _ => 0

/-- `SequenceMatcher.find_longest_match` on whole segments: the maximal
matching block `(i, j, size)`, earliest in `a` then earliest in `b`. -/
def bestBlock (a b : List Char) : Nat × Nat × Nat :=
  (List.range (a.length + 1)).foldl
    (fun best i =>
      (List.range (b.length + 1)).foldl
        (fun best j =>
          let k := lcpLen (a.drop i) (b.drop j)
          if k > best.2.2 then (i, j, k) else best)
        best)
    (0, 0, 0)

/-- Total size of the matching blocks (the recursion of
`get_matching_blocks`); `fuel` bounds the recursion depth. -/
def matchTotal : Nat → List Char → List Char → Nat
  | 0, _, _ => 0
  | fuel + 1, a, b =>
    let ijk := bestBlock a b
    if ijk.2.2 = 0 then 0
    else
      matchTotal fuel (a.take ijk.1) (b.take ijk.2.1) + ijk.2.2 +
        matchTotal fuel (a.drop (ijk.1 + ijk.2.2)) (b.drop (ijk.2.1 + ijk.2.2))

/-- `SequenceMatcher(None, a, b).ratio()` as an exact rational. -/
def ratioQ (a b : String) : ℚ :=
  if a.data.length + b.data.length = 0 then 1
  else
    (2 * (matchTotal (a.data.length + b.data.length) a.data b.data) : ℚ) /
      ((a.data.length + b.data.length : Nat) : ℚ)

/-- `difflib.get_close_matches(word, keys, n=1, cutoff)`: the best
candidate with `ratio ≥ cutoff`, ties broken by the larger string
(tuple comparison inside `nlargest`), or `none`.  Candidate strings are
`seq1`, the word is `seq2`, as in difflib.  `closeStep` is the
per-candidate accumulator step. -/
def closeStep (word : String) (cutoff : ℚ) (acc : Option (ℚ × String)) (k : String) :
    Option (ℚ × String) :=
  if cutoff ≤ ratioQ k word then
    match acc with
    | none => some (ratioQ k word, k)
    | some b =>
      if b.1 < ratioQ k word ∨ (b.1 = ratioQ k word ∧ lexLt b.2.data k.data) then
        some (ratioQ k word, k)
      else some b
  else acc

/-- `difflib.get_close_matches(word, keys, n=1, cutoff)` as an `Option`. -/
def getClose1 (word : String) (keys : List String) (cutoff : ℚ) : Option String :=
  (keys.foldl (closeStep word cutoff) none).map Prod.snd

/-!
## Customer resolution: bot.py / payment-bot/app.py / order_bot.py
-/

/-- `map_customer_with_gpt` validation (bot.py:492-556,
payment-bot/app.py:250-297): the raw model reply `resp` is accepted only
when it is not the literal `"null"` and is verbatim in the customer
list; the candidate-subset construction only shapes the prompt and is
irrelevant to the returned value. -/
def map_customer_with_gpt (customers : List String) (resp : String) : Option String :=
  if customers = [] then none
  else if resp ≠ "null" ∧ resp ∈ customers then some resp
  else none

/-- Step 3 of `find_customer`: first key whose lowercasing equals the
lowercased input. -/
def ciFind (map : List (String × String)) (nameLower : String) : Option String :=
  match map with
  | [] => none
  | (k, v) :: t => if pyLower k = nameLower then some v else ciFind t nameLower

/-- Step 4 of `PaymentBot.find_customer` (bot.py:451-467): the
`partial_matches` list — entries whose lowercased key contains the
lowercased input or vice versa. -/
def containmentMatches (map : List (String × String)) (name : String) :
    List (String × String) :=
  map.filter (fun kv =>
    strIn (pyLower name).data (pyLower kv.1).data ||
      strIn (pyLower kv.1).data (pyLower name).data)

/-- `PaymentBot.find_customer` (bot.py:424-490).  The second component
records whether the GPT mapping step was invoked.  Step 5 of the source
only logs close matches and does not affect the result. -/
def find_customer (resp : String → String) (customers : List String)
    (map : List (String × String)) (name : String) : Option String × Bool :=
  if customers.length = 0 then (none, false)
  else
    match lookupA map name with
    | some full => (some full, false)
    | none =>
      if name ∈ customers then (some name, false)
      else
        match ciFind map (pyLower name) with
        | some full => (some full, false)
        | none =>
          match containmentMatches map name with
          | [kv] => (some kv.2, false)
          | _ => (map_customer_with_gpt customers (resp name), true)

/-- `re.sub(r'\s+', ' ', s)`: collapse each whitespace run to one space.
The flag records whether the previous character was inside a run. -/
def collapseWs : List Char → Bool → List Char
  | [], _ => []
  | c :: t, inRun =>
    if isPySpace c then
      if inRun then collapseWs t true else ' ' :: collapseWs t true
    else c :: collapseWs t false

/-- The `cleaned` input of `PaymentBot.flexible_match`
(payment-bot/app.py:219): whitespace collapsed, stripped, lowercased. -/
def flexCleaned (input : String) : String :=
  pyLower (String.mk (collapseWs (stripL input.data) false))

/-- The per-key score of `flexible_match`: sequence-matcher ratio plus a
bonus of up to 0.2 for the fraction of input words present verbatim
among the key's words. -/
def flexScoreOf (input key : String) : ℚ :=
  ratioQ (flexCleaned input) (pyLower key) +
    (((pySplitWs (flexCleaned input).data).countP
          (fun w => w ∈ pySplitWs (pyLower key).data) : ℚ) /
        ((max (pySplitWs (flexCleaned input).data).length 1 : Nat) : ℚ)) * (1 / 5)

/-- `PaymentBot.flexible_match` (payment-bot/app.py:214-248): keep the
best-scoring entry (strict improvement, so the first of equal scores
wins) and return it only when its score exceeds 0.75.  `flexStep` is
the per-entry accumulator step. -/
def flexStep (input : String) (acc : ℚ × Option String) (kv : String × String) :
    ℚ × Option String :=
  if acc.1 < flexScoreOf input kv.1 then (flexScoreOf input kv.1, some kv.2) else acc

/-- `PaymentBot.flexible_match` (payment-bot/app.py:214-248). -/
def flexible_match (map : List (String × String)) (input : String) : Option String :=
  if map = [] then none
  else if 3 / 4 < (map.foldl (flexStep input) (0, none)).1 then
    (map.foldl (flexStep input) (0, none)).2
  else none

/-- `PaymentBot.find_customer` of payment-bot/app.py:179-212 (no
empty-list guard; flexible matching before the GPT fallback). -/
def app_find_customer (resp : String → String) (customers : List String)
    (map : List (String × String)) (name : String) : Option String × Bool :=
  match lookupA map name with
  | some full => (some full, false)
  | none =>
    if name ∈ customers then (some name, false)
    else
      match ciFind map (pyLower name) with
      | some full => (some full, false)
      | none =>
        match flexible_match map name with
        | some full => (some full, false)
        | none => (map_customer_with_gpt customers (resp name), true)

/-- The substring loop of `OrderBot._find_customer_in_text`
(order_bot.py:229-232): return the first entry whose lowercased key
occurs in the lowercased text. -/
def orderSubstringFind (map : List (String × String)) (textLower : String) : Option String :=
  match map with
  | [] => none
  | (k, full) :: t =>
    if strIn (pyLower k).data textLower.data then some full else orderSubstringFind t textLower

/-- The fuzzy loop of `OrderBot._find_customer_in_text`
(order_bot.py:235-241): for each of the given words, the first
`get_close_matches(word, keys, n=1, cutoff=0.8)` hit wins. -/
def orderFuzzyFind (map : List (String × String)) : List (List Char) → Option String
  | [] => none
  | w :: ws =>
    match getClose1 (String.mk w) (map.map Prod.fst) (4 / 5) with
    | some k => lookupA map k
    | none => orderFuzzyFind map ws

/-- `OrderBot._find_customer_in_text` (order_bot.py:224-243). -/
def find_customer_in_text (map : List (String × String)) (text : String) : Option String :=
  match orderSubstringFind map (pyLower text) with
  | some full => some full
  | none => orderFuzzyFind map ((pySplitWs text.data).take 3)

/-!
## Payment parsing

`re.match(r'^(.*)\s+(\d+(?:\.\d+)?)\s*(?:CUR…)?$', text)` with the
greedy leftmost semantics of CPython's backtracking engine.  After the
leading group, every sub-piece of the tail is forced (whitespace,
digits, optional fraction, whitespace, optional currency word are
drawn from disjoint character classes), so the engine's choice is the
maximal split point `p` for group 1 whose prefix is newline-free and
whose remainder matches the tail.  Inputs are stripped before
matching in both variants, so `$` is plain end-of-input.  `float` of
the digit string is modelled exactly as a rational.
-/

/-- Numeric value of a digit run. -/
def digitsVal (l : List Char) : Nat :=
  l.foldl (fun n c => 10 * n + (c.toNat - '0'.toNat)) 0

/-- The tail `\s+(\d+(?:\.\d+)?)\s*(?:CUR…)?$` of the payment pattern;
returns the captured amount. -/
def regexPayTail (cur : List String) (l : List Char) : Option ℚ :=
  let ws := l.takeWhile isPySpace
  let r1 := l.dropWhile isPySpace
  if ws = [] then none
  else
    let digits := r1.takeWhile Char.isDigit
    let r2 := r1.dropWhile Char.isDigit
    if digits = [] then none
    else
      let fr : Option (List Char) × List Char :=
        match r2 with
        | '.' :: t =>
          let fd := t.takeWhile Char.isDigit
          if fd = [] then (none, r2) else (some fd, t.dropWhile Char.isDigit)
        | _ => (none, r2)
      let r4 := fr.2.dropWhile isPySpace
      if r4 = [] ∨ cur.any (fun c => c.data = r4) then
        some (match fr.1 with
          | none => (digitsVal digits : ℚ)
          | some fd => (digitsVal digits : ℚ) + (digitsVal fd : ℚ) / ((10 : ℚ) ^ fd.length))
      else none

/-- Try the split with group 1 of length `p`. -/
def regexPayAt (cur : List String) (s : List Char) (p : Nat) : Option (List Char × ℚ) :=
  if (s.take p).all (fun c => c ≠ '\n') then
    (regexPayTail cur (s.drop p)).map (fun a => (s.take p, a))
  else none

/-- Greedy search: the largest split point whose tail matches. -/
def regexPaySearch (cur : List String) (s : List Char) : Nat → Option (List Char × ℚ)
  | 0 => regexPayAt cur s 0
  | p + 1 =>
    match regexPayAt cur s (p + 1) with
    | some r => some r
    | none => regexPaySearch cur s p

/-- The full payment regex: `(group 1, amount)` or `none`. -/
def regexPayMatch (cur : List String) (s : List Char) : Option (List Char × ℚ) :=
  regexPaySearch cur s s.length

/-- The currency alternatives of bot.py's pattern. -/
def botCurrencies : List String := ["GEL", "USD", "EUR", "ლარი", "₾"]

/-- The currency alternatives of payment-bot/app.py's pattern (no `₾`,
no `ლარი`). -/
def appCurrencies : List String := ["GEL", "USD", "EUR"]

/-- `PaymentBot.parse_payment` (bot.py:199-226): match the stripped text,
strip group 1 as the name, accept only a positive amount. -/
def parse_payment (text : String) : Option (String × ℚ) :=
  match regexPayMatch botCurrencies (pyStrip text).data with
  | some r => if 0 < r.2 then some (String.mk (stripL r.1), r.2) else none
  | none => none

/-- `re.sub(r'\b\d{4}\b', '', text)`: delete every standalone 4-digit
run.  `prev` is the character before the scan position in the original
text (boundary checks keep using the original context, and scanning
resumes after each removed match). -/
def subYears : Option Char → List Char → List Char
  | _, [] => []
  | prev, a :: b :: c :: d :: rest2 =>
    if (match prev with | none => true | some q => !isWordChar q) &&
        a.isDigit && b.isDigit && c.isDigit && d.isDigit &&
        (match rest2 with | [] => true | e :: _ => !isWordChar e)
    then subYears (some d) rest2
    else a :: subYears (some a) (b :: c :: d :: rest2)
  | _, a :: rest => a :: subYears (some a) rest

/-- `PaymentBot.parse_payment` of payment-bot/app.py:113-127: delete
standalone 4-digit runs, strip, then match (currency set without `₾`). -/
def app_parse_payment (text : String) : Option (String × ℚ) :=
  match regexPayMatch appCurrencies (pyStrip (String.mk (subYears none text.data))).data with
  | some r => if 0 < r.2 then some (String.mk (stripL r.1), r.2) else none
  | none => none

/-!
## Order validation (order_bot.py / improved_order_bot.py)
-/

/-- The JSON object `{"customer":…, "amount":…, "product":…}` parsed from
the model's reply (fields present; the amount as an exact rational). -/
structure ParsedOrder where
  customer : String
  amount : ℚ
  product : String
deriving DecidableEq

/-- `OrderBot._validate_parsed_order` (order_bot.py:279-291). -/
def validate_parsed_order (p : ParsedOrder) : Bool :=
  if p.amount ≤ 0 ∨ pyStrip p.product = "" then false else true

/-- `ImprovedOrderBot._validate_parsed_order`
(improved_order_bot.py:585-619); `values` is
`self.name_to_full.values()`. -/
def improved_validate_parsed_order (values : List String) (p : ParsedOrder) : Bool :=
  if p.amount ≤ 0 ∨ pyStrip p.product = "" ∨ pyStrip p.customer = "" then false
  else if pyStrip p.customer ∈ values then true
  else false

/-- The post-validation membership check of `OrderBot.parse_order_with_gpt`
(order_bot.py:381-394): a validated parse is accepted only when its
customer is verbatim among the mapping's values. -/
def order_gpt_accept (map : List (String × String)) (p : ParsedOrder) : Option ParsedOrder :=
  if validate_parsed_order p then
    if p.customer ∈ map.map Prod.snd then some p else none
  else none

/-!
## Ledger rows
-/

/-- `str.replace(a, b)` for single characters. -/
def pyReplaceChar (a b : Char) (s : String) : String :=
  String.mk (s.data.map (fun c => if c = a then b else c))

/-- `.replace('\n', ' ').replace('\r', ' ')`. -/
def replNewlines (s : String) : String :=
  pyReplaceChar '\r' ' ' (pyReplaceChar '\n' ' ' s)

/-- `OrderBot._sanitize_sheet_data` (order_bot.py:480-482). -/
def sanitize_sheet_data (row : List String) : List String :=
  row.map replNewlines

/-- The row built by `PaymentBot.record_to_sheets` (bot.py:558-569):
appended as-is, with no sanitization. -/
def bot_record_row (timestamp customer amount source sender : String) : List String :=
  [timestamp, customer, amount, source, sender]

/-- The row built by `ImprovedOrderBot.record_to_sheets`
(improved_order_bot.py:626-653): customer, product and sender are
sanitized; timestamp and amount are emitted as-is. -/
def improved_record_row (timestamp customer amount product sender : String) : List String :=
  [timestamp, replNewlines customer, amount, replNewlines product, replNewlines sender]

/-!
## Adding customers
-/

/-- Outcome of `PaymentBot.handle_new_customer_command`. -/
inductive AddOutcome where
  | emptyName
  | duplicate
  | added
  | gcpFailed
deriving DecidableEq

/-- `text[4:]`. -/
def strDropLeft (n : Nat) (s : String) : String := String.mk (s.data.drop n)

/-- `PaymentBot.handle_new_customer_command` (bot.py:282-335), state part:
given the `new:`-prefixed text and the GCP-secret-update outcome,
returns the outcome and the new `(customers, name_to_full)` state.
On GCP failure the appended record and its map entries are rolled back. -/
def handle_new_customer_command (gcpOk : Bool) (customers : List String)
    (map : List (String × String)) (text : String) :
    AddOutcome × List String × List (String × String) :=
  let name := pyStrip (strDropLeft 4 text)
  if name = "" then (.emptyName, customers, map)
  else if name ∈ customers then (.duplicate, customers, map)
  else
    let customers' := customers ++ [name]
    let map' :=
      match parenMatch name with
      | some g =>
        let short := pyStrip g.2
        if short = "" then map else dictInsert short name map
      | none => dictInsert name name map
    if gcpOk then (.added, customers', map')
    else
      let customers'' := listRemoveFirst name customers'
      let m1 := if (lookupA map' name).isSome then dictDelete name map' else map'
      let m2 :=
        match parenMatch name with
        | some g =>
          let short := pyStrip g.2
          if (lookupA m1 short).isSome then dictDelete short m1 else m1
        | none => m1
      (.gcpFailed, customers'', m2)

/-- `PaymentBot.add_customer` (payment-bot/app.py:96-111), state part: a
stripped record that is empty or already present is silently ignored;
otherwise it is appended and its derived key inserted (no emptiness
guard on the key in this variant). -/
def app_add_customer (customers : List String) (map : List (String × String))
    (nc0 : String) : List String × List (String × String) :=
  let nc := pyStrip nc0
  if nc ≠ "" ∧ nc ∉ customers then
    (customers ++ [nc],
      match parenMatch nc with
      | some g => dictInsert (pyStrip g.2) nc map
      | none => dictInsert nc nc map)
  else (customers, map)

/-- The `new <name>` admin path of `PaymentBot.handle_message`
(payment-bot/app.py:142-146): call `add_customer` and reply with the
added-confirmation regardless of the outcome. -/
def app_handle_add_command (customers : List String) (map : List (String × String))
    (text : String) : String × List String × List (String × String) :=
  let nc := pyStrip (strDropLeft 4 text)
  let st := app_add_customer customers map nc
  ("✅ კლიენტი დამატებულია: " ++ nc, st)

/-!
## Association-list and builder lemmas
-/

theorem mem_dictInsert {kv : String × String} {k v : String} {l : List (String × String)}
    (h : kv ∈ dictInsert k v l) : kv = (k, v) ∨ kv ∈ l := by
  induction l with
  | nil => simpa [dictInsert] using h
  | cons hd t ih =>
    unfold dictInsert at h
    split at h
    · rcases List.mem_cons.1 h with h | h
      · exact Or.inl h
      · exact Or.inr (List.mem_cons_of_mem _ h)
    · rcases List.mem_cons.1 h with h | h
      · exact Or.inr (h ▸ List.mem_cons_self _ _)
      · rcases ih h with h | h
        · exact Or.inl h
        · exact Or.inr (List.mem_cons_of_mem _ h)

theorem lookupA_dictInsert_self (k v : String) (l : List (String × String)) :
    lookupA (dictInsert k v l) k = some v := by
  induction l with
  | nil => simp [dictInsert, lookupA]
  | cons hd t ih =>
    obtain ⟨k0, v0⟩ := hd
    unfold dictInsert
    by_cases h : k0 = k
    · simp [h, lookupA]
    · simp [h, lookupA, ih]

theorem lookupA_isSome_dictInsert {l : List (String × String)} {k' : String}
    (k v : String) (h : (lookupA l k').isSome) : (lookupA (dictInsert k v l) k').isSome := by
  induction l with
  | nil => simp [lookupA] at h
  | cons hd t ih =>
    obtain ⟨k0, v0⟩ := hd
    unfold dictInsert
    by_cases hk : k0 = k
    · subst hk
      rw [if_pos rfl]
      by_cases hk' : k0 = k'
      · simp [lookupA, hk']
      · simp only [lookupA, hk', if_false] at h ⊢
        exact h
    · simp only [hk, if_false]
      unfold lookupA at h ⊢
      by_cases hk' : k0 = k'
      · simp [hk']
      · simp only [hk', if_false] at h ⊢
        exact ih h

theorem lookupA_mem {l : List (String × String)} {k v : String}
    (h : lookupA l k = some v) : (k, v) ∈ l := by
  induction l with
  | nil => simp [lookupA] at h
  | cons hd t ih =>
    unfold lookupA at h
    split at h
    · next heq => simp only [Option.some.injEq] at h; exact heq ▸ h ▸ List.mem_cons_self _ _
    · exact List.mem_cons_of_mem _ (ih h)

theorem ciFind_mem {l : List (String × String)} {nl v : String}
    (h : ciFind l nl = some v) : ∃ k, (k, v) ∈ l := by
  induction l with
  | nil => simp [ciFind] at h
  | cons hd t ih =>
    unfold ciFind at h
    split at h
    · simp only [Option.some.injEq] at h
      exact ⟨hd.1, h ▸ List.mem_cons_self _ _⟩
    · rcases ih h with ⟨k, hk⟩
      exact ⟨k, List.mem_cons_of_mem _ hk⟩

theorem mem_buildStep {kv : String × String} {acc : List (String × String)} {customer : String}
    (h : kv ∈ buildStep acc customer) :
    kv ∈ acc ∨
      (kv.2 = pyStrip customer ∧ kv.1 = specKeyOf (pyStrip customer) ∧ kv.1 ≠ "") := by
  unfold buildStep at h
  split at h
  · exact Or.inl h
  · next hc =>
    split at h
    · next g hg =>
      split at h
      · exact Or.inl h
      · next hname =>
        rcases mem_dictInsert h with h | h
        · right
          refine ⟨by simp [h], ?_, by simp [h, hname]⟩
          simp [h, specKeyOf, hg]
        · exact Or.inl h
    · next hg =>
      rcases mem_dictInsert h with h | h
      · right
        refine ⟨by simp [h], ?_, by simp [h, hc]⟩
        simp [h, specKeyOf, hg]
      · exact Or.inl h

theorem mem_foldl_buildStep :
    ∀ (records : List String) (acc : List (String × String)) (kv : String × String),
      kv ∈ records.foldl buildStep acc →
      kv ∈ acc ∨ ∃ c ∈ records,
        kv.2 = pyStrip c ∧ kv.1 = specKeyOf (pyStrip c) ∧ kv.1 ≠ "" := by
  intro records
  induction records with
  | nil => intro acc kv h; exact Or.inl h
  | cons r rs ih =>
    intro acc kv h
    rcases ih (buildStep acc r) kv h with h | ⟨c, hc, hp⟩
    · rcases mem_buildStep h with h | hp
      · exact Or.inl h
      · exact Or.inr ⟨r, List.mem_cons_self _ _, hp⟩
    · exact Or.inr ⟨c, List.mem_cons_of_mem _ hc, hp⟩

theorem mem_build_name_mapping {records : List String} {kv : String × String}
    (h : kv ∈ build_name_mapping records) :
    ∃ c ∈ records, kv.2 = pyStrip c ∧ kv.1 = specKeyOf (pyStrip c) ∧ kv.1 ≠ "" := by
  rcases mem_foldl_buildStep records [] kv h with h | h
  · simp at h
  · exact h

theorem parenMatch_empty : parenMatch "" = none := rfl

theorem buildStep_key_present {acc : List (String × String)} {c : String}
    (h : specKeyOf (pyStrip c) ≠ "") :
    (lookupA (buildStep acc c) (specKeyOf (pyStrip c))).isSome := by
  unfold buildStep
  split
  · next hc =>
    rw [hc] at h
    exact absurd (by decide : specKeyOf "" = "") h
  · next hc =>
    split
    · next g hg =>
      have hk : specKeyOf (pyStrip c) = pyStrip g.2 := by simp [specKeyOf, hg]
      rw [hk] at h ⊢
      rw [if_neg h]
      simp [lookupA_dictInsert_self]
    · next hg =>
      have hk : specKeyOf (pyStrip c) = pyStrip c := by simp [specKeyOf, hg]
      rw [hk]
      simp [lookupA_dictInsert_self]

theorem foldl_buildStep_isSome {k : String} :
    ∀ (records : List String) (acc : List (String × String)),
      (lookupA acc k).isSome → (lookupA (records.foldl buildStep acc) k).isSome := by
  intro records
  induction records with
  | nil => intro acc h; exact h
  | cons r rs ih =>
    intro acc h
    refine ih (buildStep acc r) ?_
    unfold buildStep
    split
    · exact h
    · split
      · split
        · exact h
        · exact lookupA_isSome_dictInsert _ _ h
      · exact lookupA_isSome_dictInsert _ _ h

theorem build_name_mapping_key_present :
    ∀ (records : List String) (acc : List (String × String)) (c : String),
      c ∈ records → specKeyOf (pyStrip c) ≠ "" →
      (lookupA (records.foldl buildStep acc) (specKeyOf (pyStrip c))).isSome := by
  intro records
  induction records with
  | nil => intro acc c hc; simp at hc
  | cons r rs ih =>
    intro acc c hc hk
    rcases List.mem_cons.1 hc with hc | hc
    · subst hc
      exact foldl_buildStep_isSome rs (buildStep acc c) (buildStep_key_present hk)
    · exact ih (buildStep acc r) c hc hk

theorem mem_improvedBuildStep {kv : String × String} {acc : List (String × String)}
    {customer : String} (h : kv ∈ improvedBuildStep acc customer) :
    kv ∈ acc ∨
      (kv.2 = pyStrip customer ∧
        (kv.1 = pyLower (specKeyOf (pyStrip customer)) ∨ kv.1 = pyLower (pyStrip customer))) := by
  unfold improvedBuildStep at h
  split at h
  · exact Or.inl h
  · split at h
    · next g hg =>
      split at h
      · exact Or.inl h
      · have hk : specKeyOf (pyStrip customer) = pyStrip g.2 := by simp [specKeyOf, hg]
        rcases mem_dictInsert h with h | h
        · exact Or.inr ⟨by simp [h], Or.inr (by simp [h])⟩
        · rcases mem_dictInsert h with h | h
          · exact Or.inr ⟨by simp [h], Or.inl (by simp [h, hk])⟩
          · exact Or.inl h
    · next hg =>
      rcases mem_dictInsert h with h | h
      · exact Or.inr ⟨by simp [h], Or.inr (by simp [h])⟩
      · rcases mem_dictInsert h with h | h
        · exact Or.inr ⟨by simp [h], Or.inr (by simp [h])⟩
        · exact Or.inl h

theorem mem_foldl_improvedBuildStep :
    ∀ (records : List String) (acc : List (String × String)) (kv : String × String),
      kv ∈ records.foldl improvedBuildStep acc →
      kv ∈ acc ∨ ∃ c ∈ records,
        kv.2 = pyStrip c ∧
          (kv.1 = pyLower (specKeyOf (pyStrip c)) ∨ kv.1 = pyLower (pyStrip c)) := by
  intro records
  induction records with
  | nil => intro acc kv h; exact Or.inl h
  | cons r rs ih =>
    intro acc kv h
    rcases ih (improvedBuildStep acc r) kv h with h | ⟨c, hc, hp⟩
    · rcases mem_improvedBuildStep h with h | hp
      · exact Or.inl h
      · exact Or.inr ⟨r, List.mem_cons_self _ _, hp⟩
    · exact Or.inr ⟨c, List.mem_cons_of_mem _ hc, hp⟩

theorem map_gpt_eq_some {customers : List String} {resp r : String}
    (h : map_customer_with_gpt customers resp = some r) : r ∈ customers ∧ r = resp := by
  unfold map_customer_with_gpt at h
  split at h
  · exact absurd h (by simp)
  · split at h
    · next hc =>
      simp only [Option.some.injEq] at h
      exact ⟨h ▸ hc.2, h.symm⟩
    · exact absurd h (by simp)

theorem mem_containmentMatches {map : List (String × String)} {name : String}
    {kv : String × String} (h : kv ∈ containmentMatches map name) : kv ∈ map :=
  List.mem_of_mem_filter h

/-!
## Claims C1-C4
-/

/-- C1 (amended): every canonical string returned by `find_customer` over
an index built from the record list is a member of the list or the
whitespace-trimmed form of a member; the GPT mapping step rejects any
reply not verbatim in the list, and the order bot likewise rejects
GPT-parsed orders whose customer is not among the mapping's values. -/
theorem C1_resolution_validated :
    (∀ (resp : String → String) (records : List String) (name r : String) (b : Bool),
        find_customer resp records (build_name_mapping records) name = (some r, b) →
        ∃ c ∈ records, r = c ∨ r = pyStrip c) ∧
    (∀ (customers : List String) (s : String), s ∉ customers →
        map_customer_with_gpt customers s = none) ∧
    (∀ (map : List (String × String)) (p q : ParsedOrder),
        order_gpt_accept map p = some q → q.customer ∈ map.map Prod.snd) := by
  refine ⟨?_, ?_, ?_⟩
  · intro resp records name r b h
    unfold find_customer at h
    split at h
    · simp at h
    · split at h
      · next full heq =>
        simp only [Prod.mk.injEq, Option.some.injEq] at h
        rcases mem_build_name_mapping (lookupA_mem heq) with ⟨c, hc, hv, -⟩
        exact ⟨c, hc, Or.inr (h.1 ▸ hv)⟩
      · split at h
        · next hmem =>
          simp only [Prod.mk.injEq, Option.some.injEq] at h
          exact ⟨name, hmem, Or.inl h.1.symm⟩
        · split at h
          · next full heq =>
            simp only [Prod.mk.injEq, Option.some.injEq] at h
            rcases ciFind_mem heq with ⟨k, hk⟩
            rcases mem_build_name_mapping hk with ⟨c, hc, hv, -⟩
            exact ⟨c, hc, Or.inr (h.1 ▸ hv)⟩
          · split at h
            · next kv heq =>
              simp only [Prod.mk.injEq, Option.some.injEq] at h
              have hkv : kv ∈ containmentMatches (build_name_mapping records) name := by
                rw [heq]; exact List.mem_singleton_self kv
              rcases mem_build_name_mapping (mem_containmentMatches hkv) with ⟨c, hc, hv, -⟩
              exact ⟨c, hc, Or.inr (h.1 ▸ hv)⟩
            · next =>
              simp only [Prod.mk.injEq] at h
              rcases map_gpt_eq_some h.1 with ⟨hm, -⟩
              exact ⟨r, hm, Or.inl rfl⟩
  · intro customers s hs
    unfold map_customer_with_gpt
    split
    · rfl
    · rw [if_neg (by simp [hs])]
  · intro map p q h
    unfold order_gpt_accept at h
    split at h
    · split at h
      · next hm =>
        simp only [Option.some.injEq] at h
        exact h ▸ hm
      · exact absurd h (by simp)
    · exact absurd h (by simp)

/-- C1 witness: a GPT reply not present in the customer list is mapped
to no-match. -/
theorem C1_witness : map_customer_with_gpt ["ab"] "zz" = none :=
  C1_resolution_validated.2.1 ["ab"] "zz" (by decide)

/-- C1 counterexample: the index maps the derived key to the *stripped*
record, so resolving "ab" against the list `[" ab "]` returns `"ab"`,
which is not a member of the loaded record list. -/
theorem C1_counterexample :
    find_customer (fun _ => "null") [" ab "] (build_name_mapping [" ab "]) "ab" =
        (some "ab", false) ∧
      "ab" ∉ ([" ab "] : List String) := by
  constructor
  · decide
  · decide

/-- C2: a candidate equal to a stored key (case-sensitive) resolves to
that key's canonical record without ever invoking the GPT mapping step,
in both `find_customer` variants (the boolean flag records GPT use). -/
theorem C2_exact_match_short_circuits :
    (∀ (resp : String → String) (records : List String) (name full : String),
        lookupA (build_name_mapping records) name = some full →
        find_customer resp records (build_name_mapping records) name = (some full, false)) ∧
    (∀ (resp : String → String) (customers : List String)
        (map : List (String × String)) (name full : String),
        lookupA map name = some full →
        app_find_customer resp customers map name = (some full, false)) := by
  constructor
  · intro resp records name full h
    have hne : records ≠ [] := by
      intro he
      subst he
      simp [build_name_mapping, lookupA] at h
    unfold find_customer
    rw [if_neg (by simpa [List.length_eq_zero] using hne)]
    rw [h]
  · intro resp customers map name full h
    unfold app_find_customer
    rw [h]

/-- C2 witness at a concrete index. -/
theorem C2_witness :
    find_customer (fun _ => "null") ["(1) Abc"] (build_name_mapping ["(1) Abc"]) "Abc" =
      (some "(1) Abc", false) :=
  C2_exact_match_short_circuits.1 (fun _ => "null") ["(1) Abc"] "Abc" "(1) Abc" (by decide)

/-- C3 (amended): each non-empty trimmed record contributes the key
`rest` trimmed when it matches `(code) rest` and the whole trimmed
record otherwise; empty keys are discarded; but keys are stored in
their *original case* in the bot.py/order_bot builder (lowercasing
happens at lookup time), mapping to the trimmed record; the improved
variant stores lowercased keys (including the lowercased full record). -/
theorem C3_index_key_derivation :
    (∀ (records : List String) (kv : String × String),
        kv ∈ build_name_mapping records →
        ∃ c ∈ records, kv.2 = pyStrip c ∧ kv.1 = specKeyOf (pyStrip c) ∧ kv.1 ≠ "") ∧
    (∀ (records : List String) (c : String),
        c ∈ records → specKeyOf (pyStrip c) ≠ "" →
        (lookupA (build_name_mapping records) (specKeyOf (pyStrip c))).isSome) ∧
    (∀ (records : List String) (kv : String × String),
        kv ∈ improved_build_customer_mapping records →
        ∃ c ∈ records, kv.2 = pyStrip c ∧
          (kv.1 = pyLower (specKeyOf (pyStrip c)) ∨ kv.1 = pyLower (pyStrip c))) := by
  refine ⟨fun _ _ h => mem_build_name_mapping h,
    fun records c hc hk => build_name_mapping_key_present records [] c hc hk,
    fun records kv h => ?_⟩
  rcases mem_foldl_improvedBuildStep records [] kv h with h | h
  · simp at h
  · exact h

/-- C3 witness: the record `"(1) Ab"` contributes a present key. -/
theorem C3_witness :
    (lookupA (build_name_mapping ["(1) Ab"]) (specKeyOf (pyStrip "(1) Ab"))).isSome = true :=
  C3_index_key_derivation.2.1 ["(1) Ab"] "(1) Ab" (by decide) (by decide)

/-- C3 counterexample: the bot.py builder stores the key `"Ab"` in its
original case — the lowercased key `"ab"` is absent, refuting "every
stored key is lowercased". -/
theorem C3_counterexample :
    build_name_mapping ["(1) Ab"] = [("Ab", "(1) Ab")] ∧
      lookupA (build_name_mapping ["(1) Ab"]) "ab" = none := by
  constructor
  · decide
  · decide

/-- C4 (amended): in `PaymentBot.find_customer` the substring strategy
wins only when exactly one entry satisfies containment and otherwise
defers to the GPT step; but `OrderBot._find_customer_in_text` returns
the first key contained in the text even when several keys match. -/
theorem C4_containment_ambiguity :
    (∀ (resp : String → String) (customers : List String)
        (map : List (String × String)) (name : String) (kv : String × String),
        customers ≠ [] → lookupA map name = none → name ∉ customers →
        ciFind map (pyLower name) = none → containmentMatches map name = [kv] →
        find_customer resp customers map name = (some kv.2, false)) ∧
    (∀ (resp : String → String) (customers : List String)
        (map : List (String × String)) (name : String),
        customers ≠ [] → lookupA map name = none → name ∉ customers →
        ciFind map (pyLower name) = none → (containmentMatches map name).length ≠ 1 →
        find_customer resp customers map name =
          (map_customer_with_gpt customers (resp name), true)) := by
  constructor
  · intro resp customers map name kv hne hlk hmem hci hpm
    unfold find_customer
    rw [if_neg (by simpa [List.length_eq_zero] using hne)]
    rw [hlk]
    rw [if_neg hmem]
    rw [hci]
    rw [hpm]
  · intro resp customers map name hne hlk hmem hci hlen
    unfold find_customer
    rw [if_neg (by simpa [List.length_eq_zero] using hne)]
    rw [hlk]
    rw [if_neg hmem]
    rw [hci]
    rcases hl : containmentMatches map name with - | ⟨kv0, - | ⟨kv1, t⟩⟩
    · rfl
    · rw [hl] at hlen
      simp at hlen
    · rfl

/-- C4 witness: a unique containment match wins without GPT. -/
theorem C4_witness :
    find_customer (fun _ => "null") ["abcd"] [("abcd", "abcd")] "bc" = (some "abcd", false) :=
  C4_containment_ambiguity.1 (fun _ => "null") ["abcd"] [("abcd", "abcd")] "bc"
    ("abcd", "abcd") (by decide) (by decide) (by decide) (by decide) (by decide)

/-- C4 counterexample: in the order bot, both keys `"ab"` and `"abc"`
are contained in the text, yet the strategy returns the first one
instead of yielding no result. -/
theorem C4_counterexample :
    find_customer_in_text [("ab", "(1) ab"), ("abc", "(2) abc")] "abc 5 x" = some "(1) ab" ∧
      strIn (pyLower "ab").data (pyLower "abc 5 x").data = true ∧
      strIn (pyLower "abc").data (pyLower "abc 5 x").data = true := by
  refine ⟨?_, ?_, ?_⟩
  · decide
  · decide
  · decide

/-!
## Fuzzy-matching lemmas and claim C5
-/

theorem closeStep_cases (word : String) (cutoff : ℚ) (acc : Option (ℚ × String)) (k : String) :
    closeStep word cutoff acc k = acc ∨
      (closeStep word cutoff acc k = some (ratioQ k word, k) ∧ cutoff ≤ ratioQ k word) := by
  unfold closeStep
  split
  · next hcut =>
    cases acc with
    | none => exact Or.inr ⟨rfl, hcut⟩
    | some b =>
      dsimp only
      by_cases hlt : b.1 < ratioQ k word ∨ (b.1 = ratioQ k word ∧ lexLt b.2.data k.data)
      · rw [if_pos hlt]
        exact Or.inr ⟨rfl, hcut⟩
      · rw [if_neg hlt]
        exact Or.inl rfl
  · exact Or.inl rfl

theorem closeFold_sound (word : String) (cutoff : ℚ) :
    ∀ (keys : List String) (acc : Option (ℚ × String)) (r : ℚ) (k : String),
      keys.foldl (closeStep word cutoff) acc = some (r, k) →
      acc = some (r, k) ∨ (k ∈ keys ∧ r = ratioQ k word ∧ cutoff ≤ r) := by
  intro keys
  induction keys with
  | nil => intro acc r k h; exact Or.inl h
  | cons k0 ks ih =>
    intro acc r k h
    rcases ih (closeStep word cutoff acc k0) r k h with h' | ⟨hk, hr⟩
    · rcases closeStep_cases word cutoff acc k0 with hc | ⟨hc, hcut⟩
      · rw [hc] at h'
        exact Or.inl h'
      · rw [hc] at h'
        simp only [Option.some.injEq, Prod.mk.injEq] at h'
        refine Or.inr ⟨h'.2 ▸ List.mem_cons_self _ _, ?_, h'.1 ▸ hcut⟩
        rw [← h'.1, ← h'.2]
    · exact Or.inr ⟨List.mem_cons_of_mem _ hk, hr⟩

theorem getClose1_sound {word : String} {cutoff : ℚ} {keys : List String} {k : String}
    (h : getClose1 word keys cutoff = some k) : k ∈ keys ∧ cutoff ≤ ratioQ k word := by
  unfold getClose1 at h
  rcases Option.map_eq_some'.1 h with ⟨⟨r, k'⟩, hf, hk⟩
  simp only at hk
  subst hk
  rcases closeFold_sound word cutoff keys none r k' hf with h' | ⟨hm, hr, hc⟩
  · simp at h'
  · exact ⟨hm, hr ▸ hc⟩

theorem orderFuzzyFind_sound {map : List (String × String)} :
    ∀ (ws : List (List Char)) (f : String),
      orderFuzzyFind map ws = some f →
      ∃ w ∈ ws, ∃ k, lookupA map k = some f ∧ (4 / 5 : ℚ) ≤ ratioQ k (String.mk w) := by
  intro ws
  induction ws with
  | nil => intro f h; simp [orderFuzzyFind] at h
  | cons w ws' ih =>
    intro f h
    unfold orderFuzzyFind at h
    split at h
    · next k heq =>
      rcases getClose1_sound heq with ⟨-, hr⟩
      exact ⟨w, List.mem_cons_self _ _, k, h, hr⟩
    · rcases ih f h with ⟨w', hw', hk⟩
      exact ⟨w', List.mem_cons_of_mem _ hw', hk⟩

theorem flexStep_fst_ge (input : String) (acc : ℚ × Option String) (kv : String × String) :
    acc.1 ≤ (flexStep input acc kv).1 := by
  unfold flexStep
  split
  · next h => exact le_of_lt h
  · exact le_refl _

theorem flexStep_score_le (input : String) (acc : ℚ × Option String) (kv : String × String) :
    flexScoreOf input kv.1 ≤ (flexStep input acc kv).1 := by
  unfold flexStep
  split
  · exact le_refl _
  · next h => exact le_of_not_lt h

theorem flexStep_cases (input : String) (acc : ℚ × Option String) (kv : String × String) :
    flexStep input acc kv = acc ∨ flexStep input acc kv = (flexScoreOf input kv.1, some kv.2) := by
  unfold flexStep
  split
  · exact Or.inr rfl
  · exact Or.inl rfl

theorem flexFold_fst_ge (input : String) :
    ∀ (l : List (String × String)) (acc : ℚ × Option String),
      acc.1 ≤ (l.foldl (flexStep input) acc).1 := by
  intro l
  induction l with
  | nil => intro acc; exact le_refl _
  | cons kv0 t ih =>
    intro acc
    exact le_trans (flexStep_fst_ge input acc kv0) (ih (flexStep input acc kv0))

theorem flexFold_score_le (input : String) :
    ∀ (l : List (String × String)) (acc : ℚ × Option String) (kv : String × String),
      kv ∈ l → flexScoreOf input kv.1 ≤ (l.foldl (flexStep input) acc).1 := by
  intro l
  induction l with
  | nil => intro acc kv h; simp at h
  | cons kv0 t ih =>
    intro acc kv h
    rcases List.mem_cons.1 h with h | h
    · subst h
      exact le_trans (flexStep_score_le input acc kv) (flexFold_fst_ge input t _)
    · exact ih (flexStep input acc kv0) kv h

theorem flexFold_attained (input : String) :
    ∀ (l : List (String × String)) (acc : ℚ × Option String),
      l.foldl (flexStep input) acc = acc ∨
        ∃ kv ∈ l, l.foldl (flexStep input) acc = (flexScoreOf input kv.1, some kv.2) := by
  intro l
  induction l with
  | nil => intro acc; exact Or.inl rfl
  | cons kv0 t ih =>
    intro acc
    rw [List.foldl_cons]
    rcases ih (flexStep input acc kv0) with h | ⟨kv, hkv, h⟩
    · rcases flexStep_cases input acc kv0 with hc | hc
      · exact Or.inl (h.trans hc)
      · exact Or.inr ⟨kv0, List.mem_cons_self _ _, h.trans hc⟩
    · exact Or.inr ⟨kv, List.mem_cons_of_mem _ hkv, h⟩

/-- C5 (amended): order-bot token fuzzing examines only the first 3
tokens and accepts a key only at sequence ratio *at least* 0.8
(difflib's cutoff is inclusive, not strict); whole-string
`flexible_match` returns the single best-scoring key only when its
ratio-plus-word-bonus score exceeds 0.75, and yields nothing when every
score is at most 0.75. -/
theorem C5_fuzzy_thresholds :
    (∀ (map : List (String × String)) (text : String) (f : String),
        orderSubstringFind map (pyLower text) = none →
        find_customer_in_text map text = some f →
        ∃ w ∈ (pySplitWs text.data).take 3,
          ∃ k, lookupA map k = some f ∧ (4 / 5 : ℚ) ≤ ratioQ k (String.mk w)) ∧
    (∀ (map : List (String × String)) (input : String) (f : String),
        flexible_match map input = some f →
        ∃ kv ∈ map, kv.2 = f ∧ (3 / 4 : ℚ) < flexScoreOf input kv.1 ∧
          ∀ kv2 ∈ map, flexScoreOf input kv2.1 ≤ flexScoreOf input kv.1) ∧
    (∀ (map : List (String × String)) (input : String),
        (∀ kv ∈ map, flexScoreOf input kv.1 ≤ 3 / 4) →
        flexible_match map input = none) := by
  refine ⟨?_, ?_, ?_⟩
  · intro map text f hsub h
    unfold find_customer_in_text at h
    rw [hsub] at h
    exact orderFuzzyFind_sound _ f h
  · intro map input f h
    unfold flexible_match at h
    split at h
    · simp at h
    · split at h
      · next hgt =>
        rcases flexFold_attained input map (0, none) with hb | ⟨kv, hkv, hb⟩
        · rw [hb] at h
          simp at h
        · rw [hb] at h hgt
          simp only at h hgt
          refine ⟨kv, hkv, by simpa using h, hgt, ?_⟩
          intro kv2 hkv2
          have := flexFold_score_le input map (0, none) kv2 hkv2
          rw [hb] at this
          exact this
      · simp at h
  · intro map input hall
    unfold flexible_match
    split
    · rfl
    · split
      · next hgt =>
        rcases flexFold_attained input map (0, none) with hb | ⟨kv, hkv, hb⟩
        · rw [hb]
        · rw [hb] at hgt
          simp only at hgt
          exact absurd hgt (not_lt.2 (hall kv hkv))
      · rfl

theorem ratio_abc_ab : ratioQ "abc" "ab" = 4 / 5 := by
  have hm : matchTotal 5 "abc".data "ab".data = 2 := by decide
  have hl : "abc".data.length + "ab".data.length = 5 := by decide
  unfold ratioQ
  rw [hl, hm]
  norm_num

theorem ratio_ab_zzzz : ratioQ (flexCleaned "ab") (pyLower "zzzz") = 0 := by
  have hc : flexCleaned "ab" = "ab" := by decide
  have hz : pyLower "zzzz" = "zzzz" := by decide
  rw [hc, hz]
  have hm : matchTotal 6 "ab".data "zzzz".data = 0 := by decide
  have hl : "ab".data.length + "zzzz".data.length = 6 := by decide
  unfold ratioQ
  rw [hl, hm]
  norm_num

theorem flexScore_ab_zzzz : flexScoreOf "ab" "zzzz" = 0 := by
  have h1 : ((pySplitWs (flexCleaned "ab").data).countP
      (fun w => w ∈ pySplitWs (pyLower "zzzz").data)) = 0 := by decide
  have h2 : (max (pySplitWs (flexCleaned "ab").data).length 1) = 1 := by decide
  unfold flexScoreOf
  rw [h1, h2, ratio_ab_zzzz]
  norm_num

/-- C5 witness: a key with score 0 is rejected by `flexible_match`. -/
theorem C5_witness : flexible_match [("zzzz", "Z")] "ab" = none := by
  refine C5_fuzzy_thresholds.2.2 [("zzzz", "Z")] "ab" ?_
  intro kv hkv
  simp only [List.mem_singleton] at hkv
  subst hkv
  show flexScoreOf "ab" "zzzz" ≤ 3 / 4
  rw [flexScore_ab_zzzz]
  norm_num

theorem getClose1_ab_abc :
    getClose1 (String.mk ['a', 'b']) (List.map Prod.fst [("abc", "(9) abc")]) (4 / 5) =
      some "abc" := by
  show getClose1 (String.mk ['a', 'b']) ["abc"] (4 / 5) = some "abc"
  have hr : ratioQ "abc" (String.mk ['a', 'b']) = 4 / 5 := by
    have : String.mk ['a', 'b'] = "ab" := rfl
    rw [this, ratio_abc_ab]
  unfold getClose1
  simp only [List.foldl_cons, List.foldl_nil]
  unfold closeStep
  rw [hr, if_pos le_rfl]
  rfl

/-- C5 counterexample: `ratio("abc","ab") = 0.8` exactly, and the token
fuzzy strategy *accepts* it — the claim's strict "exceeds 0.8" fails. -/
theorem C5_counterexample :
    find_customer_in_text [("abc", "(9) abc")] "ab 5 x" = some "(9) abc" ∧
      ratioQ "abc" "ab" = 4 / 5 := by
  refine ⟨?_, ratio_abc_ab⟩
  unfold find_customer_in_text
  rw [show orderSubstringFind [("abc", "(9) abc")] (pyLower "ab 5 x") = none from by decide]
  rw [show (pySplitWs ("ab 5 x").data).take 3 = [['a', 'b'], ['5'], ['x']] from by decide]
  unfold orderFuzzyFind
  rw [getClose1_ab_abc]
  decide

/-!
## Claims C6, C8, C9
-/

/-- C6: a parsed payment carries a strictly positive amount, and both
order validators reject any parse whose amount is zero or negative,
yielding no result rather than an error. -/
theorem C6_nonpositive_amount_rejected :
    (∀ (text nm : String) (a : ℚ), parse_payment text = some (nm, a) → 0 < a) ∧
    (∀ p : ParsedOrder, p.amount ≤ 0 → validate_parsed_order p = false) ∧
    (∀ (values : List String) (p : ParsedOrder), p.amount ≤ 0 →
        improved_validate_parsed_order values p = false) := by
  refine ⟨?_, ?_, ?_⟩
  · intro text nm a h
    unfold parse_payment at h
    split at h
    · next r heq =>
      split at h
      · next hpos =>
        simp only [Option.some.injEq, Prod.mk.injEq] at h
        exact h.2 ▸ hpos
      · exact absurd h (by simp)
    · exact absurd h (by simp)
  · intro p hp
    unfold validate_parsed_order
    rw [if_pos (Or.inl hp)]
  · intro values p hp
    unfold improved_validate_parsed_order
    rw [if_pos (Or.inl hp)]

/-- C6 witness: `"a 5"` parses with the positive amount 5. -/
theorem C6_witness : parse_payment ("a 5") = some ("a", 5) ∧ (0 : ℚ) < 5 :=
  ⟨by decide, C6_nonpositive_amount_rejected.1 ("a 5") "a" 5 (by decide)⟩

theorem replNewlines_clean (s : String) :
    ∀ ch ∈ (replNewlines s).data, ch ≠ '\n' ∧ ch ≠ '\r' := by
  intro ch hch
  have hch' : ch ∈ (s.data.map (fun c => if c = '\n' then ' ' else c)).map
      (fun c => if c = '\r' then ' ' else c) := hch
  rcases List.mem_map.1 hch' with ⟨c1, hc1, rfl⟩
  rcases List.mem_map.1 hc1 with ⟨c0, -, rfl⟩
  by_cases h0 : c0 = '\n'
  · simp only [h0, if_pos rfl]
    decide
  · by_cases h1 : c0 = '\r'
    · simp only [h1, if_neg (by decide : ¬('\r' : Char) = '\n'), if_pos rfl]
      decide
    · simp only [if_neg h0, if_neg h1]
      exact ⟨h0, h1⟩

/-- C8 (amended): the order_bot ledger path replaces `\n`/`\r` with
spaces in every field; the improved variant sanitizes the customer,
product and sender fields (timestamp and amount are emitted as-is);
the payment bot (bot.py) emits its row without any sanitization. -/
theorem C8_row_sanitization :
    (∀ (row : List String) (f : String) (ch : Char),
        f ∈ sanitize_sheet_data row → ch ∈ f.data → ch ≠ '\n' ∧ ch ≠ '\r') ∧
    (∀ (t c a p s : String) (f : String), f ∈ improved_record_row t c a p s →
        f = t ∨ f = a ∨ ∀ ch ∈ f.data, ch ≠ '\n' ∧ ch ≠ '\r') := by
  constructor
  · intro row f ch hf hch
    rcases List.mem_map.1 hf with ⟨g, -, rfl⟩
    exact replNewlines_clean g ch hch
  · intro t c a p s f hf
    simp only [improved_record_row, List.mem_cons, List.not_mem_nil, or_false] at hf
    rcases hf with rfl | rfl | rfl | rfl | rfl
    · exact Or.inl rfl
    · exact Or.inr (Or.inr (replNewlines_clean c))
    · exact Or.inr (Or.inl rfl)
    · exact Or.inr (Or.inr (replNewlines_clean p))
    · exact Or.inr (Or.inr (replNewlines_clean s))

/-- C8 witness: a sanitized field contains no newline characters. -/
theorem C8_witness :
    ("a b" ∈ sanitize_sheet_data ["a\nb"]) ∧
      ((' ' : Char) ≠ '\n' ∧ (' ' : Char) ≠ '\r') :=
  ⟨by decide, C8_row_sanitization.1 ["a\nb"] "a b" ' ' (by decide) (by decide)⟩

/-- C8 counterexample: bot.py's `record_to_sheets` row still contains an
embedded newline in the customer field — no sanitization happens there,
although the claim covers that emission path. -/
theorem C8_counterexample :
    ("a\nb" ∈ bot_record_row "t" ("a\nb") "5" "Direct" "u") ∧ '\n' ∈ ("a\nb").data := by
  constructor
  · decide
  · decide

/-- C9 (amended): bot.py's rule-based `parse_payment` maps the exact
input `"ბაჩუკი 15 ₾"` to the name `"ბაჩუკი"` and amount 15, consuming
the trailing currency token. -/
theorem C9_parse_georgian_payment :
    parse_payment ("ბაჩუკი 15 ₾") = some ("ბაჩუკი", 15) := by decide

/-- C9 counterexample: the payment-bot/app.py variant's currency set
lacks `₾`, so the very same input yields no rule-based parse there. -/
theorem C9_counterexample : app_parse_payment ("ბაჩუკი 15 ₾") = none := by decide

/-!
## Strip idempotence and claim C7
-/

theorem head?_dropWhile_not {p : Char → Bool} :
    ∀ (l : List Char) (c : Char), (l.dropWhile p).head? = some c → p c = false := by
  intro l
  induction l with
  | nil => intro c h; simp [List.dropWhile] at h
  | cons hd t ih =>
    intro c h
    rw [List.dropWhile_cons] at h
    split at h
    · exact ih c h
    · next hp =>
      simp only [List.head?_cons, Option.some.injEq] at h
      subst h
      exact Bool.not_eq_true _ ▸ hp

theorem dropWhile_idem {p : Char → Bool} (l : List Char) :
    (l.dropWhile p).dropWhile p = l.dropWhile p := by
  cases hr : l.dropWhile p with
  | nil => rfl
  | cons x xs =>
    have hx : p x = false := head?_dropWhile_not l x (by rw [hr]; rfl)
    rw [List.dropWhile_cons, if_neg (by simp [hx])]

theorem stripL_idem (l : List Char) : stripL (stripL l) = stripL l := by
  have h1 : (stripL l).dropWhile isPySpace = stripL l := by
    rcases hs : stripL l with - | ⟨x, xs⟩
    · rfl
    · have hpre : (x :: xs) <+: (l.dropWhile isPySpace) := by
        rw [← hs]
        unfold stripL
        refine List.reverse_suffix.mp ?_
        simpa using @List.dropWhile_suffix _ ((l.dropWhile isPySpace).reverse) isPySpace
      rcases hpre with ⟨t, ht⟩
      have hx : isPySpace x = false := by
        apply head?_dropWhile_not l
        rw [← ht]
        rfl
      rw [List.dropWhile_cons, if_neg (by simp [hx])]
  have h3 : (stripL l).reverse = ((l.dropWhile isPySpace).reverse).dropWhile isPySpace := by
    unfold stripL
    rw [List.reverse_reverse]
  show (((stripL l).dropWhile isPySpace).reverse.dropWhile isPySpace).reverse = stripL l
  rw [h1, h3, dropWhile_idem, ← h3, List.reverse_reverse]

theorem pyStrip_idem (s : String) : pyStrip (pyStrip s) = pyStrip s := by
  unfold pyStrip
  congr 1
  exact stripL_idem s.data

theorem app_add_customer_dup {customers : List String} {map : List (String × String)}
    {nc0 : String} (h : pyStrip nc0 ∈ customers) :
    app_add_customer customers map nc0 = (customers, map) := by
  unfold app_add_customer
  rw [if_neg (fun hcond => hcond.2 h)]

/-- C7 (amended): adding a record already present verbatim leaves the
customer list and the name index unchanged in both variants; bot.py
rejects the duplicate with a distinguished outcome, while
payment-bot/app.py silently ignores it and its handler still issues the
added-confirmation reply. -/
theorem C7_duplicate_add :
    (∀ (gcpOk : Bool) (customers : List String) (map : List (String × String))
        (text : String),
        pyStrip (strDropLeft 4 text) ≠ "" → pyStrip (strDropLeft 4 text) ∈ customers →
        handle_new_customer_command gcpOk customers map text =
          (AddOutcome.duplicate, customers, map)) ∧
    (∀ (customers : List String) (map : List (String × String)) (nc0 : String),
        pyStrip nc0 ∈ customers → app_add_customer customers map nc0 = (customers, map)) ∧
    (∀ (customers : List String) (map : List (String × String)) (text : String),
        pyStrip (strDropLeft 4 text) ∈ customers →
        app_handle_add_command customers map text =
          ("✅ კლიენტი დამატებულია: " ++ pyStrip (strDropLeft 4 text), customers, map)) := by
  refine ⟨?_, ?_, ?_⟩
  · intro gcpOk customers map text hne hdup
    simp only [handle_new_customer_command]
    rw [if_neg hne, if_pos hdup]
  · intro customers map nc0 h
    exact app_add_customer_dup h
  · intro customers map text h
    simp only [app_handle_add_command]
    rw [app_add_customer_dup (by rw [pyStrip_idem]; exact h)]

/-- C7 witness: a duplicate `new:` command is rejected with the
duplicate outcome and the state is unchanged. -/
theorem C7_witness :
    handle_new_customer_command true ["ab"] [] ("new:ab") =
      (AddOutcome.duplicate, ["ab"], []) :=
  C7_duplicate_add.1 true ["ab"] [] ("new:ab") (by decide) (by decide)

/-- C7 counterexample: the payment-bot variant leaves the state
unchanged on a duplicate but signals no error — the handler replies
with the same added-confirmation message as for a genuine addition. -/
theorem C7_counterexample :
    app_handle_add_command ["ab"] [("ab", "ab")] ("new ab") =
        ("✅ კლიენტი დამატებულია: ab", ["ab"], [("ab", "ab")]) ∧
      "ab" ∈ (["ab"] : List String) := by
  constructor
  · decide
  · decide

/-!
## Year-removal lemmas and claim C10
-/

theorem mem_stripL {c : Char} {l : List Char} (h : c ∈ stripL l) : c ∈ l := by
  unfold stripL at h
  rw [List.mem_reverse] at h
  have h1 := (List.dropWhile_suffix isPySpace).subset h
  rw [List.mem_reverse] at h1
  exact (List.dropWhile_suffix isPySpace).subset h1

theorem digitfree_regexPayTail {cur : List String} (l : List Char)
    (h : ∀ c ∈ l, c.isDigit = false) : regexPayTail cur l = none := by
  by_cases hw : l.takeWhile isPySpace = []
  · simp only [regexPayTail]
    rw [if_pos hw]
  · have hd : (l.dropWhile isPySpace).takeWhile Char.isDigit = [] := by
      cases hr : l.dropWhile isPySpace with
      | nil => rfl
      | cons x xs =>
        have hx : x ∈ l :=
          (List.dropWhile_suffix isPySpace).subset (hr ▸ List.mem_cons_self x xs)
        rw [List.takeWhile_cons, if_neg (by simp [h x hx])]
    simp only [regexPayTail]
    rw [if_neg hw, hd, if_pos rfl]

theorem digitfree_regexPayAt {cur : List String} {s : List Char}
    (h : ∀ c ∈ s, c.isDigit = false) (p : Nat) : regexPayAt cur s p = none := by
  unfold regexPayAt
  split
  · rw [digitfree_regexPayTail (s.drop p) (fun c hc => h c (List.drop_subset _ _ hc))]
    rfl
  · rfl

theorem digitfree_regexPaySearch {cur : List String} {s : List Char}
    (h : ∀ c ∈ s, c.isDigit = false) : ∀ p, regexPaySearch cur s p = none := by
  intro p
  induction p with
  | zero =>
    unfold regexPaySearch
    exact digitfree_regexPayAt h 0
  | succ p ih =>
    unfold regexPaySearch
    rw [digitfree_regexPayAt h (p + 1)]
    exact ih

theorem subYears_cons_nondigit (prev : Option Char) (a : Char) (l : List Char)
    (ha : a.isDigit = false) : subYears prev (a :: l) = a :: subYears (some a) l := by
  rcases l with - | ⟨b, - | ⟨c, - | ⟨d, rest⟩⟩⟩
  · rfl
  · rfl
  · rfl
  · simp [subYears, ha]

theorem subYears_append_nondigit :
    ∀ (nm : List Char) (prev : Option Char) (rest : List Char),
      (∀ c ∈ nm, c.isDigit = false) →
      ∃ p', subYears prev (nm ++ rest) = nm ++ subYears p' rest := by
  intro nm
  induction nm with
  | nil => intro prev rest _; exact ⟨prev, rfl⟩
  | cons a t ih =>
    intro prev rest h
    rcases ih (some a) rest (fun c hc => h c (List.mem_cons_of_mem _ hc)) with ⟨p', hp⟩
    refine ⟨p', ?_⟩
    rw [List.cons_append, subYears_cons_nondigit prev a _ (h a (List.mem_cons_self _ _)),
      List.cons_append, hp]

theorem subYears_year_after_space (d1 d2 d3 d4 : Char) (h1 : d1.isDigit = true)
    (h2 : d2.isDigit = true) (h3 : d3.isDigit = true) (h4 : d4.isDigit = true) :
    subYears (some ' ') [d1, d2, d3, d4] = [] := by
  have hw : isWordChar ' ' = false := by decide
  simp [subYears, hw, h1, h2, h3, h4]

/-- C10 (amended): the payment-bot variant first deletes every
standalone 4-digit run; consequently a message made of a *digit-free*
name followed by a 4-digit amount yields no parse at all (in
particular, never that amount), and a 4-digit year-like token inside
the name portion is silently removed from the extracted name — but a
name containing a longer digit run can still produce an amount equal to
the deleted 4-digit value (see the counterexample). -/
theorem C10_four_digit_removal :
    (∀ (nm d : List Char), (∀ c ∈ nm, c.isDigit = false) → d.length = 4 →
        (∀ c ∈ d, c.isDigit = true) →
        app_parse_payment (String.mk (nm ++ ' ' :: d)) = none) ∧
    app_parse_payment ("ბაჩუკი 2015 150") = some ("ბაჩუკი", 150) := by
  constructor
  · intro nm d hnm hlen hd
    rcases d with - | ⟨d1, - | ⟨d2, - | ⟨d3, - | ⟨d4, rest⟩⟩⟩⟩ <;> simp at hlen
    subst hlen
    have hsub : subYears none (nm ++ ' ' :: [d1, d2, d3, d4]) = nm ++ [' '] := by
      rcases subYears_append_nondigit nm none (' ' :: [d1, d2, d3, d4]) hnm with ⟨p', hp⟩
      rw [hp, subYears_cons_nondigit p' ' ' _ (by decide),
        subYears_year_after_space d1 d2 d3 d4 (hd d1 (by simp)) (hd d2 (by simp))
          (hd d3 (by simp)) (hd d4 (by simp))]
    have hfree : ∀ c ∈ (pyStrip (String.mk (nm ++ [' ']))).data, c.isDigit = false := by
      intro c hc
      have hc' : c ∈ stripL (nm ++ [' ']) := hc
      rcases List.mem_append.1 (mem_stripL hc') with h | h
      · exact hnm c h
      · simp only [List.mem_singleton] at h
        subst h
        decide
    have hmatch :
        regexPayMatch appCurrencies (pyStrip (String.mk (nm ++ [' ']))).data = none := by
      unfold regexPayMatch
      exact digitfree_regexPaySearch hfree _
    unfold app_parse_payment
    have hdata : (String.mk (nm ++ ' ' :: [d1, d2, d3, d4])).data
        = nm ++ ' ' :: [d1, d2, d3, d4] := rfl
    rw [hdata, hsub, hmatch]
  · decide

/-- C10 witness: a digit-free name followed by a 4-digit amount parses
to nothing — the 4-digit token has been deleted before matching. -/
theorem C10_witness :
    app_parse_payment (String.mk (String.data "ბაჩუკი" ++ ' ' :: String.data "1500")) = none :=
  C10_four_digit_removal.1 (String.data "ბაჩუკი") (String.data "1500")
    (by decide) (by decide) (by decide)

/-- C10 counterexample: the name `"a 01500"` contains a 5-digit run that
survives year removal, so the message `"a 01500 1500"` — a name followed
by the 4-digit amount 1500 — parses to the amount 1500 after all,
refuting "never returns that 4-digit number as the amount". -/
theorem C10_counterexample :
    app_parse_payment ("a 01500" ++ " " ++ "1500") = some ("a", 1500) := by decide

end Telebots
